import Mathlib

/-!
# Verification of the fingerprint aggregation / anomaly-detection pipeline

Shallow embedding of the core pipeline of the `AI-Anamoly-Detector`
repository:

* `src/aggregator/aggregator.py` — the Fingerprint Builder: queries two
  Count-Min-Sketch counters, perturbs the counts with random variation,
  normalizes each label-set segment, concatenates, serialises the vector
  and appends it to a Redis stream;
* `src/ai-service/detector.py` — the Anomaly Detector: a training loop
  that accumulates parsed fingerprints, then a detection loop scoring
  each parsed fingerprint and publishing alerts.

Modelling conventions:

* Python floats are modelled as exact rationals (`ℚ`); the decimal
  rounding performed by `round(x, 6)` is modelled at the decimal level
  (round-half-to-even, Python's documented rounding mode).
* Python strings are modelled as `List Char`.
* Random draws (`random.random()`, `random.randint`) are modelled as
  explicit parameters of the tick: a `Noise` structure carrying the
  drawn values, so that a tick is a pure function of the counter
  responses and the draws.
* Fallible external calls (`CMS.QUERY`, `publish`) are modelled as
  `Except String` values injected into the function; an `Except.error`
  models the call raising an exception.
-/

namespace Pipeline

/-! ## Label sets (aggregator.py lines 12–33) -/

/-- `IMPORTANT_ENDPOINTS` from aggregator.py: the fixed endpoint label set. -/
def IMPORTANT_ENDPOINTS : List String :=
  ["GET:/api/data", "GET:/api/error", "GET:/api/users", "POST:/api/users",
   "GET:/api/orders", "GET:/api/admin", "GET:/api/gateway"]

/-- `STATUS_CODES` from aggregator.py: the fixed status-code label set. -/
def STATUS_CODES : List String :=
  ["200", "201", "400", "401", "403", "404", "409", "429", "500", "502", "503"]

/-! ## Counter query (aggregator.py lines 36–41) -/

/-- `cms_query(r, key, items)`: issue `CMS.QUERY key *items`; on success the
response is one integer count per item; on any exception return
`[0 for _ in items]`.  The response (or the exception) is the `resp`
parameter. -/
def cms_query (resp : Except String (List ℤ)) (items : List String) : List ℤ :=
  match resp with
  | .ok res => res
  | .error _ => items.map (fun _ => 0)

/-! ## Normalization (aggregator.py lines 44–48) -/

/-- `normalize(values)`: `total = float(sum(values))`; if `total == 0.0`
return a zero vector of the same length, else divide elementwise. -/
def normalize (values : List ℤ) : List ℚ :=
  let total : ℚ := (values.sum : ℤ)
  if total = 0 then values.map (fun _ => (0 : ℚ))
  else values.map (fun (v : ℤ) => (v : ℚ) / total)

/-! ## The tick's random perturbations (aggregator.py lines 73–90) -/

/-- The random draws consumed by one `tick` (aggregator.py lines 75–90).
Each field records the value a `random.*` call returns:
`anomalous` is `random.random() < 0.15`, `errorSpike` the inner
`random.random() < 0.5`, `spike i` the `random.randint(5, 15)` drawn for
status index `i ≥ 2`, `unusualIdx`/`unusualAmount` the
`random.randint(0, len-1)` / `random.randint(10, 30)` pair, and
`endpointDelta i` / `statusDelta i` the `random.randint(-1, 2)` drawn for
element `i` of the final natural-variation comprehensions. -/
structure Noise where
  anomalous : Bool
  errorSpike : Bool
  spike : ℕ → ℤ
  unusualIdx : ℕ
  unusualAmount : ℤ
  endpointDelta : ℕ → ℤ
  statusDelta : ℕ → ℤ

/-- Line 79–82: `status_counts = [c + randint(5,15) if i >= 2 else c
for i, c in enumerate(status_counts)]`. -/
def applyStatusSpike (spike : ℕ → ℤ) (counts : List ℤ) : List ℤ :=
  counts.mapIdx (fun i c => if 2 ≤ i then c + spike i else c)

/-- Lines 85–86: `endpoint_counts[unusual_idx] += randint(10, 30)`. -/
def bumpEndpoint (idx : ℕ) (amount : ℤ) (counts : List ℤ) : List ℤ :=
  counts.mapIdx (fun i c => if i = idx then c + amount else c)

/-- Lines 89–90: `[max(0, c + randint(-1, 2)) for c in counts]`. -/
def naturalVariation (delta : ℕ → ℤ) (counts : List ℤ) : List ℤ :=
  counts.mapIdx (fun i c => max 0 (c + delta i))

/-! ## One tick of the Fingerprint Builder (aggregator.py lines 69–94) -/

/-- The inputs of one `tick`: the two `CMS.QUERY` responses (an
`Except.error` models the command raising) and the random draws. -/
structure TickEnv where
  endpointResp : Except String (List ℤ)
  statusResp : Except String (List ℤ)
  noise : Noise

/-- The endpoint Count Vector after the tick's random perturbations
(aggregator.py lines 70, 75–77, 83–86, 89). -/
def perturbedEndpointCounts (env : TickEnv) : List ℤ :=
  let endpoint_counts := cms_query env.endpointResp IMPORTANT_ENDPOINTS
  let endpoint_counts :=
    if env.noise.anomalous ∧ ¬ env.noise.errorSpike then
      bumpEndpoint env.noise.unusualIdx env.noise.unusualAmount endpoint_counts
    else endpoint_counts
  naturalVariation env.noise.endpointDelta endpoint_counts

/-- The status-code Count Vector after the tick's random perturbations
(aggregator.py lines 71, 75–82, 90). -/
def perturbedStatusCounts (env : TickEnv) : List ℤ :=
  let status_counts := cms_query env.statusResp STATUS_CODES
  let status_counts :=
    if env.noise.anomalous ∧ env.noise.errorSpike then
      applyStatusSpike env.noise.spike status_counts
    else status_counts
  naturalVariation env.noise.statusDelta status_counts

/-- `tick(r)` up to the emitted vector (aggregator.py lines 69–92): query
both counters, apply the random perturbations, normalize each segment
independently and concatenate.  (Line 93 then serialises `vec` onto the
stream; line 94 notes that `reset_sketches` was removed.) -/
def tick (env : TickEnv) : List ℚ :=
  let endpoint_counts := cms_query env.endpointResp IMPORTANT_ENDPOINTS
  let status_counts := cms_query env.statusResp STATUS_CODES
  let pair :=
    if env.noise.anomalous then
      if env.noise.errorSpike then
        (endpoint_counts, applyStatusSpike env.noise.spike status_counts)
      else
        (bumpEndpoint env.noise.unusualIdx env.noise.unusualAmount endpoint_counts,
         status_counts)
    else (endpoint_counts, status_counts)
  let endpoint_counts := naturalVariation env.noise.endpointDelta pair.1
  let status_counts := naturalVariation env.noise.statusDelta pair.2
  normalize endpoint_counts ++ normalize status_counts

/-! ## Decimal digit strings

Python strings are modelled as `List Char`.  These helpers render and
fold decimal digit sequences; they back the model of `str(round(x, 6))`
(aggregator.py line 52) and of `float(x)` (detector.py line 33). -/

/-- The character of the decimal digit `d` (for `d < 10`). -/
def digitChar (d : ℕ) : Char := Char.ofNat (48 + d)

/-- The decimal value of a digit character. -/
def charDigit (c : Char) : ℕ := c.toNat - 48

/-- Big-endian decimal digits of `m % 10^w`, zero-padded to width `w`. -/
def fixedDigits : ℕ → ℕ → List Char
  | 0, _ => []
  | w + 1, m => fixedDigits w (m / 10) ++ [digitChar (m % 10)]

/-- Number of decimal digits of `n` (one digit for `n < 10`). -/
def numDigits (n : ℕ) : ℕ := Nat.log 10 n + 1

/-- Big-endian decimal digits of `n`, no padding (`"0"` for `0`). -/
def natDigits (n : ℕ) : List Char := fixedDigits (numDigits n) n

/-- Accumulate a decimal digit string left to right, as `float()` does. -/
def foldDigits (s : List Char) : ℕ :=
  s.foldl (fun a c => 10 * a + charDigit c) 0

/-! ## Serialisation: `write_stream` (aggregator.py lines 51–53) -/

/-- Round half to even, the tie-breaking rule of Python's `round`. -/
def roundHalfEven (x : ℚ) : ℤ :=
  let n := Int.floor x
  let frac := x - n
  if frac < 1 / 2 then n
  else if 1 / 2 < frac then n + 1
  else if Even n then n else n + 1

/-- Strip trailing `'0'` characters. -/
def stripTrailingZeros (s : List Char) : List Char :=
  (s.reverse.dropWhile (fun c => c = '0')).reverse

/-- Python's `str()` of the float value `n / 10^6` for `n : ℕ`: the shortest
decimal notation.  Fixed notation `I.F` (fraction's trailing zeros
stripped, at least one fractional digit) when the value is `0` or at
least `1e-4`; scientific notation `d[.ddd]e-0E` when `0 < value < 1e-4`,
as Python switches to it below `1e-4`. -/
def strMicro (n : ℕ) : List Char :=
  if n = 0 then ['0', '.', '0']
  else if 100 ≤ n then
    let intPart := natDigits (n / 10 ^ 6)
    let frac := stripTrailingZeros (fixedDigits 6 (n % 10 ^ 6))
    intPart ++ '.' :: (if frac = [] then ['0'] else frac)
  else
    let z : ℕ := if n % 10 = 0 then 1 else 0
    let d := n / 10 ^ z
    let mantissa := match natDigits d with
      | [] => []
      | [c] => [c]
      | c :: rest => c :: '.' :: rest
    let e := 6 - z - (numDigits d - 1)
    mantissa ++ 'e' :: '-' :: '0' :: [digitChar (e % 10)]

/-- `str(round(x, 6))` for the rational model `x` of a Python float:
round to an integer count `n` of millionths, then print `n / 10^6`. -/
def pyStrRound6 (x : ℚ) : List Char :=
  let n := roundHalfEven (x * 10 ^ 6)
  if n < 0 then '-' :: strMicro n.natAbs else strMicro n.toNat

/-- `",".join(parts)`. -/
def joinComma : List (List Char) → List Char
  | [] => []
  | [s] => s
  | s :: rest => s ++ ',' :: joinComma rest

/-- `write_stream` (aggregator.py lines 51–53): the `data` field value
appended to the `system-fingerprints` stream,
`"[" + ",".join([str(round(x, 6)) for x in vec]) + "]"`. -/
def write_stream_data (vec : List ℚ) : List Char :=
  '[' :: (joinComma (vec.map pyStrRound6) ++ [']'])

/-! ## Parsing: `parse_vector` (detector.py lines 25–35) -/

/-- Split at every character satisfying `p`, Python `str.split` style:
the empty string yields `[[]]`, separators produce empty fields. -/
def pySplitP (p : Char → Bool) : List Char → List (List Char)
  | [] => [[]]
  | c :: rest =>
    if p c then [] :: pySplitP p rest
    else
      match pySplitP p rest with
      | [] => [[c]]
      | t :: ts => (c :: t) :: ts

/-- Python `str.split(sep)` semantics. -/
def pySplit (sep : Char) : List Char → List (List Char) :=
  pySplitP (fun c => c = sep)

/-- The whitespace characters Python's `str.strip()` removes. -/
def isSpaceChar (c : Char) : Bool :=
  c = ' ' ∨ c = '\t' ∨ c = '\n' ∨ c = '\r' ∨ c = '\x0b' ∨ c = '\x0c'

/-- Python `str.strip()`. -/
def pyStrip (s : List Char) : List Char :=
  ((s.dropWhile isSpaceChar).reverse.dropWhile isSpaceChar).reverse

/-- Mantissa of a float literal: `digits[.digits]` or `.digits`, at least
one digit in total. -/
def parseMantissa (s : List Char) : Option ℚ :=
  match pySplit '.' s with
  | [ip] =>
    if ip ≠ [] ∧ ip.all Char.isDigit then some ((foldDigits ip : ℕ) : ℚ)
    else none
  | [ip, fp] =>
    if ip ++ fp ≠ [] ∧ ip.all Char.isDigit ∧ fp.all Char.isDigit then
      some (((foldDigits ip : ℕ) : ℚ) + ((foldDigits fp : ℕ) : ℚ) / 10 ^ fp.length)
    else none
  | _ => none

/-- Exponent of a float literal: optional sign then at least one digit. -/
def parseExp (s : List Char) : Option ℤ :=
  match s with
  | '-' :: rest =>
    if rest ≠ [] ∧ rest.all Char.isDigit then some (-((foldDigits rest : ℕ) : ℤ))
    else none
  | '+' :: rest =>
    if rest ≠ [] ∧ rest.all Char.isDigit then some ((foldDigits rest : ℕ) : ℤ)
    else none
  | _ =>
    if s ≠ [] ∧ s.all Char.isDigit then some ((foldDigits s : ℕ) : ℤ)
    else none

/-- Unsigned float literal: mantissa with optional exponent part after a
case-insensitive `e` marker. -/
def parseUnsigned (s : List Char) : Option ℚ :=
  match pySplitP (fun c => c = 'e' || c = 'E') s with
  | [m] => parseMantissa m
  | [m, ex] =>
    match parseMantissa m, parseExp ex with
    | some mv, some ev => some (mv * (10 : ℚ) ^ ev)
    | _, _ => none
  | _ => none

/-- Python `float(s)` on finite decimal literals: strip whitespace, optional
sign, mantissa, optional exponent; `none` models `float` raising
`ValueError`.  (`inf`/`nan`/underscore literals are rejected by this
model; none occur in the pipeline's data.) -/
def pyFloat (s : List Char) : Option ℚ :=
  let s := pyStrip s
  match s with
  | '-' :: rest => (parseUnsigned rest).map (fun q => -q)
  | '+' :: rest => parseUnsigned rest
  | _ => parseUnsigned s

/-- `[float(x) for x in toks]`: parse the tokens left to right; the first
token `float` rejects aborts the whole comprehension with an exception
(`none`). -/
def parseAll : List (List Char) → Option (List ℚ)
  | [] => some []
  | t :: ts =>
    match pyFloat t, parseAll ts with
    | some q, some qs => some (q :: qs)
    | _, _ => none

/-- The fields of a stream entry, reduced to `fields.get('data')`:
`none` models an entry with no `data` field. -/
abbrev Fields := Option (List Char)

/-- `parse_vector(fields)` (detector.py lines 25–35): read the `data` field;
on a falsy value return `[]`; strip, remove one matching pair of
brackets, split on commas, drop whitespace-only tokens, parse each token
with `float`; any exception yields `[]`. -/
def parse_vector (fields : Fields) : List ℚ :=
  match fields with
  | none => []
  | some raw =>
    if raw = [] then []
    else
      let raw := pyStrip raw
      let raw :=
        if raw.head? = some '[' ∧ raw.getLast? = some ']' then
          (raw.drop 1).dropLast
        else raw
      let toks := (pySplit ',' raw).filter (fun t => pyStrip t ≠ [])
      match parseAll toks with
      | some qs => qs
      | none => []

/-! ## Detector training phase (detector.py lines 38–64) -/

/-- One observation of the training loop: `elapsed` is `time.time() - start`
at the loop-condition check of that iteration, `fields` the outcome of
`read_stream_blocking` (`none` models a timed-out read returning no
entry, `some f` an entry with fields `f`). -/
structure TrainStep where
  elapsed : ℚ
  fields : Option Fields

/-- The hardcoded training time bound, seconds (detector.py line 48). -/
def TRAINING_TIME_BOUND : ℚ := 600

/-- The training collection loop (detector.py lines 48–55), run over a
finite trace of observations: while fewer than `target` vectors are
collected and the elapsed time is below the bound, read an entry, skip
it if absent or unparsable, append its parsed vector otherwise.  If the
trace ends with the loop condition still true, the vectors collected so
far are returned (the real loop would block for further entries). -/
def trainLoop (target : ℕ) : List TrainStep → List (List ℚ) → List (List ℚ)
  | [], acc => acc
  | step :: rest, acc =>
    if acc.length < target ∧ step.elapsed < TRAINING_TIME_BOUND then
      match step.fields with
      | none => trainLoop target rest acc
      | some fields =>
        let vec := parse_vector fields
        if vec ≠ [] then trainLoop target rest (acc ++ [vec])
        else trainLoop target rest acc
    else acc

/-- What the detector process does after the training loop exits. -/
inductive DetectorOutcome
  | exitedNoData : DetectorOutcome
  | detecting : List (List ℚ) → DetectorOutcome
deriving DecidableEq

/-- detector.py lines 48–64: run the training loop; if `training_vectors`
is empty, `main` returns (the process exits without entering detection);
otherwise the model is fitted on the collected matrix and the process
enters the detection loop. -/
def detectorStartup (target : ℕ) (trace : List TrainStep) : DetectorOutcome :=
  let training_vectors := trainLoop target trace []
  if training_vectors = [] then .exitedNoData else .detecting training_vectors

/-! ## Detection loop (detector.py lines 66–79) -/

/-- One iteration of the detection loop.  `predict` models
`model.predict` on one row (`1` normal, `-1` anomaly); `publishResult`
models the `r.publish` call (`Except.error` models it raising).  The
result is `.ok alerted` when the iteration completes, with `alerted`
recording whether an alert was published; `.error e` when an exception
escapes the iteration — the loop body contains no exception handler, so
an error from `publish` propagates out of `main`. -/
def detectStep (predict : List ℚ → ℤ) (publishResult : Except String Unit)
    (fields : Option Fields) : Except String Bool :=
  match fields with
  | none => .ok false
  | some f =>
    let vec := parse_vector f
    if vec = [] then .ok false
    else if predict vec = -1 then
      match publishResult with
      | .ok _ => .ok true
      | .error e => .error e
    else .ok false

/-! ## The aggregator's effect on Redis state (aggregator.py lines 51–94) -/

/-- The Redis state the aggregator touches: the two count sketches
(modelled as exact per-label counts) and the `system-fingerprints`
stream of serialised `data` fields. -/
structure RedisState where
  endpointSketch : String → ℕ
  statusSketch : String → ℕ
  stream : List (List Char)

/-- `reset_sketches` (aggregator.py lines 56–66): delete and re-initialise
both sketches, emptying every count. -/
def reset_sketches (s : RedisState) : RedisState :=
  { s with endpointSketch := fun _ => 0, statusSketch := fun _ => 0 }

/-- The non-deterministic inputs of one stateful tick: whether each
`CMS.QUERY` succeeds, and the random draws. -/
structure TickIO where
  endpointOk : Bool
  statusOk : Bool
  noise : Noise

/-- The `TickEnv` a tick sees against state `s`: a successful `CMS.QUERY`
returns the sketch's count for each queried label, a failed one raises. -/
def envOfState (io : TickIO) (s : RedisState) : TickEnv :=
  { endpointResp :=
      if io.endpointOk then
        .ok (IMPORTANT_ENDPOINTS.map (fun l => (s.endpointSketch l : ℤ)))
      else .error "CMS.QUERY failed",
    statusResp :=
      if io.statusOk then
        .ok (STATUS_CODES.map (fun l => (s.statusSketch l : ℤ)))
      else .error "CMS.QUERY failed",
    noise := io.noise }

/-- A full `tick(r)` as a Redis-state transformer (aggregator.py lines
69–94): the only write is the `XADD` of the serialised vector (line 93,
`write_stream`); the sketches are read (lines 70–71) but never written —
the `reset_sketches` call was removed (line 94). -/
def tickState (io : TickIO) (s : RedisState) : RedisState :=
  { s with stream := s.stream ++ [write_stream_data (tick (envOfState io s))] }

/-- The aggregator's main loop (lines 97–104) over a finite run of ticks. -/
def runTicks (ios : List TickIO) (s : RedisState) : RedisState :=
  ios.foldl (fun s io => tickState io s) s

/-! # Theorems

## Facts about `normalize` -/

theorem normalize_length (v : List ℤ) : (normalize v).length = v.length := by
  simp only [normalize]
  split <;> simp

theorem sum_map_div_cast (l : List ℤ) (c : ℚ) :
    (l.map (fun (x : ℤ) => (x : ℚ) / c)).sum = ((l.sum : ℤ) : ℚ) / c := by
  induction l with
  | nil => simp
  | cons a t ih =>
    simp only [List.map_cons, List.sum_cons, ih]
    push_cast
    rw [add_div]

theorem normalize_sum_eq_one (v : List ℤ) (h : v.sum ≠ 0) : (normalize v).sum = 1 := by
  have hc : ((v.sum : ℤ) : ℚ) ≠ 0 := by exact_mod_cast h
  unfold normalize
  rw [if_neg hc, sum_map_div_cast, div_self hc]

theorem normalize_eq_zero_iff (v : List ℤ) :
    normalize v = v.map (fun _ => (0 : ℚ)) ↔ v.sum = 0 := by
  constructor
  · intro h
    by_contra hs
    have h1 := normalize_sum_eq_one v hs
    rw [h] at h1
    simp [List.map_const'] at h1
  · intro h
    unfold normalize
    rw [if_pos (by exact_mod_cast h)]

/-- **C2.** For every list `v` of non-negative integer counts, `normalize v`
has the same length as `v`; when `sum v > 0` its elements sum to exactly `1`
(the rational model of "1.0 within floating-point tolerance"); and it is the
all-zero vector exactly when `sum v = 0`.  The `total == 0.0` guard means no
division by zero (hence no NaN) ever occurs. -/
theorem normalize_spec (v : List ℤ) (hv : ∀ x ∈ v, 0 ≤ x) :
    (normalize v).length = v.length ∧
    (0 < v.sum → (normalize v).sum = 1) ∧
    (normalize v = List.replicate v.length (0 : ℚ) ↔ v.sum = 0) := by
  refine ⟨normalize_length v, fun h => normalize_sum_eq_one v (ne_of_gt h), ?_⟩
  rw [← List.map_const' v (0 : ℚ)]
  exact normalize_eq_zero_iff v

/-- Witness for C2 at the spec's Scenario-A endpoint Count Vector `[10, 0]`. -/
theorem normalize_spec_witness :
    (normalize [10, 0]).length = ([10, 0] : List ℤ).length ∧
    (0 < ([10, 0] : List ℤ).sum → (normalize [10, 0]).sum = 1) ∧
    (normalize [10, 0] = List.replicate ([10, 0] : List ℤ).length (0 : ℚ) ↔
      ([10, 0] : List ℤ).sum = 0) :=
  normalize_spec [10, 0] (by decide)

/-! ## Dimensionality (C3) -/

theorem cms_query_length (resp : Except String (List ℤ)) (items : List String)
    (h : ∀ l, resp = .ok l → l.length = items.length) :
    (cms_query resp items).length = items.length := by
  cases resp with
  | ok l => simpa [cms_query] using h l rfl
  | error e => simp [cms_query]

theorem applyStatusSpike_length (spike : ℕ → ℤ) (c : List ℤ) :
    (applyStatusSpike spike c).length = c.length := by
  simp [applyStatusSpike]

theorem bumpEndpoint_length (idx : ℕ) (amount : ℤ) (c : List ℤ) :
    (bumpEndpoint idx amount c).length = c.length := by
  simp [bumpEndpoint]

theorem naturalVariation_length (delta : ℕ → ℤ) (c : List ℤ) :
    (naturalVariation delta c).length = c.length := by
  simp [naturalVariation]

/-- **C3.** Every emitted fingerprint has dimensionality
`|IMPORTANT_ENDPOINTS| + |STATUS_CODES| = 7 + 11 = 18`, whatever the
observed counts, the random perturbations, and whether either counter
query failed.  The hypotheses say only that a *successful* `CMS.QUERY`
response carries one count per queried item (the Redis contract); a
failed query is covered unconditionally. -/
theorem tick_dimensionality (env : TickEnv)
    (he : ∀ l, env.endpointResp = .ok l → l.length = IMPORTANT_ENDPOINTS.length)
    (hs : ∀ l, env.statusResp = .ok l → l.length = STATUS_CODES.length) :
    (tick env).length = IMPORTANT_ENDPOINTS.length + STATUS_CODES.length ∧
    (tick env).length = 18 := by
  have h1 : (tick env).length = IMPORTANT_ENDPOINTS.length + STATUS_CODES.length := by
    cases hA : env.noise.anomalous <;> cases hB : env.noise.errorSpike <;>
      simp [tick, hA, hB, normalize_length, naturalVariation_length,
        applyStatusSpike_length, bumpEndpoint_length,
        cms_query_length _ _ he, cms_query_length _ _ hs]
  exact ⟨h1, by rw [h1]; rfl⟩

/-- A tick environment in which both counter queries raise and no
anomalous pattern is injected. -/
def envDown : TickEnv :=
  ⟨.error "CMS.QUERY failed", .error "CMS.QUERY failed",
   ⟨false, false, fun _ => 5, 0, 10, fun _ => 0, fun _ => 0⟩⟩

/-- Witness for C3: a tick whose two counter queries both failed still
emits an 18-dimensional fingerprint. -/
theorem tick_dimensionality_witness :
    (tick envDown).length = IMPORTANT_ENDPOINTS.length + STATUS_CODES.length ∧
    (tick envDown).length = 18 :=
  tick_dimensionality envDown (fun _ h => nomatch h) (fun _ h => nomatch h)

/-! ## Counter-query failure handling (C6) -/

/-- **C6.** When a counter query raises: `cms_query` substitutes a zero
count for every label of the queried set instead of propagating (first
conjunct); a fully-zero segment normalizes to the all-zero segment
(second conjunct); a tick whose two queries both raise emits exactly
what it would emit had the counters answered all-zero (third conjunct) —
in particular it still reaches `normalize` and `write_stream`: the
failed tick still appends its serialised vector to the stream (last
conjunct). -/
theorem cms_query_failure_substitutes_zero (msg msg₁ msg₂ : String)
    (items : List String) (nz : Noise) (s : RedisState) :
    cms_query (.error msg) items = items.map (fun _ => 0) ∧
    normalize (items.map (fun _ => (0 : ℤ))) = items.map (fun _ => (0 : ℚ)) ∧
    tick ⟨.error msg₁, .error msg₂, nz⟩ =
      tick ⟨.ok (IMPORTANT_ENDPOINTS.map (fun _ => 0)),
            .ok (STATUS_CODES.map (fun _ => 0)), nz⟩ ∧
    (tickState ⟨false, false, nz⟩ s).stream =
      s.stream ++ [write_stream_data (tick (envOfState ⟨false, false, nz⟩ s))] := by
  refine ⟨rfl, ?_, rfl, rfl⟩
  simp [normalize]

/-! ## The tick never resets the counters (C10) -/

theorem runTicks_endpointSketch (ios : List TickIO) (s : RedisState) :
    (runTicks ios s).endpointSketch = s.endpointSketch := by
  induction ios generalizing s with
  | nil => rfl
  | cons io t ih => exact ih (tickState io s)

theorem runTicks_statusSketch (ios : List TickIO) (s : RedisState) :
    (runTicks ios s).statusSketch = s.statusSketch := by
  induction ios generalizing s with
  | nil => rfl
  | cons io t ih => exact ih (tickState io s)

/-- **C10.** A tick's only effect on the Redis state is appending the
serialised fingerprint to the stream: both sketches are left exactly as
they were (the defined `reset_sketches` is never invoked from `tick`),
and over any run of the main loop the sketches still hold their original
accumulated counts — cumulative (Policy B) semantics, so each emitted
fingerprint is computed from the cumulative counts at tick time. -/
theorem tick_never_resets_sketches (io : TickIO) (s : RedisState) (ios : List TickIO) :
    (tickState io s).endpointSketch = s.endpointSketch ∧
    (tickState io s).statusSketch = s.statusSketch ∧
    (tickState io s).stream =
      s.stream ++ [write_stream_data (tick (envOfState io s))] ∧
    (runTicks ios s).endpointSketch = s.endpointSketch ∧
    (runTicks ios s).statusSketch = s.statusSketch :=
  ⟨rfl, rfl, rfl, runTicks_endpointSketch ios s, runTicks_statusSketch ios s⟩

/-! ## The fingerprint emitted by a tick (C1) -/

theorem naturalVariation_of_zero (delta : ℕ → ℤ) (h : ∀ i, delta i = 0)
    (c : List ℤ) (hc : ∀ x ∈ c, 0 ≤ x) : naturalVariation delta c = c := by
  refine List.ext_getElem (naturalVariation_length delta c) fun n h1 h2 => ?_
  simp only [naturalVariation, List.getElem_mapIdx, h n, add_zero]
  exact max_eq_right (hc _ (List.getElem_mem h2))

/-- **C1 (amended).** The fingerprint a tick emits is the concatenation, in
label-set declaration order, of the independently normalized *perturbed*
count vectors — the queried counts after the tick's random anomaly
injection and natural variation (first conjunct).  When the random draws
perturb nothing (no anomaly injected, every natural-variation delta
zero) and the queried counts are non-negative, it is exactly the
concatenation of the normalized queried Count Vectors (second conjunct);
and on the spec's Scenario-A counts, `normalize [10,0] ++
normalize [8,2,0] = [1.0, 0.0, 0.8, 0.2, 0.0]` (third conjunct). -/
theorem tick_fingerprint_composition (env : TickEnv) :
    tick env =
      normalize (perturbedEndpointCounts env) ++
        normalize (perturbedStatusCounts env) ∧
    ((env.noise.anomalous = false ∧ (∀ i, env.noise.endpointDelta i = 0) ∧
      (∀ i, env.noise.statusDelta i = 0) ∧
      (∀ x ∈ cms_query env.endpointResp IMPORTANT_ENDPOINTS, 0 ≤ x) ∧
      (∀ x ∈ cms_query env.statusResp STATUS_CODES, 0 ≤ x)) →
      tick env =
        normalize (cms_query env.endpointResp IMPORTANT_ENDPOINTS) ++
          normalize (cms_query env.statusResp STATUS_CODES)) ∧
    normalize [10, 0] ++ normalize [8, 2, 0] = [1, 0, 4/5, 1/5, 0] := by
  refine ⟨?_, ?_, by norm_num [normalize]⟩
  · cases hA : env.noise.anomalous <;> cases hB : env.noise.errorSpike <;>
      simp [tick, perturbedEndpointCounts, perturbedStatusCounts, hA, hB]
  · rintro ⟨hA, hE, hS, hce, hcs⟩
    simp only [tick, hA, Bool.false_eq_true, if_false,
      naturalVariation_of_zero env.noise.endpointDelta hE _ hce,
      naturalVariation_of_zero env.noise.statusDelta hS _ hcs]

/-- A tick environment with Scenario-A-style queried counts and all
random draws neutral. -/
def env10 : TickEnv :=
  ⟨.ok [10, 0, 0, 0, 0, 0, 0], .ok [8, 2, 0, 0, 0, 0, 0, 0, 0, 0, 0],
   ⟨false, false, fun _ => 5, 0, 10, fun _ => 0, fun _ => 0⟩⟩

/-- Witness for C1 (amended): with neutral draws the emitted fingerprint is
the concatenation of the normalized queried Count Vectors. -/
theorem tick_fingerprint_composition_witness :
    tick env10 =
      normalize (cms_query env10.endpointResp IMPORTANT_ENDPOINTS) ++
        normalize (cms_query env10.statusResp STATUS_CODES) :=
  (tick_fingerprint_composition env10).2.1
    ⟨rfl, fun _ => rfl, fun _ => rfl, by decide, by decide⟩

/-- Like `env10` but with a natural-variation draw of `+1` on every
endpoint label (an outcome of `random.randint(-1, 2)` with positive
probability). -/
def envC1 : TickEnv :=
  ⟨.ok [10, 0, 0, 0, 0, 0, 0], .ok [8, 2, 0, 0, 0, 0, 0, 0, 0, 0, 0],
   ⟨false, false, fun _ => 5, 0, 10, fun _ => 1, fun _ => 0⟩⟩

/-- **C1 counterexample.** With queried endpoint counts
`[10, 0, 0, 0, 0, 0, 0]` and status counts `[8, 2, 0, ..., 0]` and the
natural-variation draws all `+1` on the endpoint segment, the emitted
fingerprint is *not* the concatenation of the normalized queried Count
Vectors: aggregator.py lines 73–90 perturb the counts before
normalizing, which the claim (and the spec's §4.1 algorithm) omits. -/
theorem tick_noise_counterexample :
    tick envC1 ≠
      normalize (cms_query envC1.endpointResp IMPORTANT_ENDPOINTS) ++
        normalize (cms_query envC1.statusResp STATUS_CODES) := by
  norm_num [tick, envC1, cms_query, IMPORTANT_ENDPOINTS, STATUS_CODES,
    naturalVariation, normalize, List.mapIdx_cons]

/-! ## Training phase (C7) -/

theorem trainLoop_length_le (target : ℕ) (trace : List TrainStep) (acc : List (List ℚ)) :
    (trainLoop target trace acc).length ≤ max acc.length target := by
  induction trace generalizing acc with
  | nil => simp [trainLoop]
  | cons step rest ih =>
    simp only [trainLoop]
    by_cases h : acc.length < target ∧ step.elapsed < TRAINING_TIME_BOUND
    · rw [if_pos h]
      cases hf : step.fields with
      | none => exact ih acc
      | some f =>
        dsimp only
        by_cases hv : parse_vector f ≠ []
        · rw [if_pos hv]
          refine le_trans (ih (acc ++ [parse_vector f])) ?_
          have h2 : (acc ++ [parse_vector f]).length ≤ target := by
            simp only [List.length_append, List.length_singleton]
            omega
          calc max (acc ++ [parse_vector f]).length target = target := max_eq_right h2
            _ ≤ max acc.length target := le_max_right _ _
        · rw [if_neg hv]
          exact ih acc
    · rw [if_neg h]
      exact le_max_left _ _

theorem trainLoop_of_unparsable (target : ℕ) (trace : List TrainStep)
    (h : ∀ step ∈ trace, (step.fields.map parse_vector).getD [] = []) :
    ∀ acc, trainLoop target trace acc = acc := by
  induction trace with
  | nil => intro acc; rfl
  | cons step rest ih =>
    intro acc
    have hstep := h step (by simp)
    have hrest : ∀ s ∈ rest, (s.fields.map parse_vector).getD [] = [] :=
      fun s hs => h s (by simp [hs])
    simp only [trainLoop]
    split
    · cases hf : step.fields with
      | none => exact ih hrest acc
      | some f =>
        have hpf : parse_vector f = [] := by rw [hf] at hstep; exact hstep
        dsimp only
        rw [if_neg (by simp [hpf])]
        exact ih hrest acc
    · rfl

/-- **C7 (amended).** The training loop accumulates parsed fingerprints
and never holds more than the target count (first conjunct); it stops at
any iteration whose condition check finds the target reached or the
600-second bound elapsed (second conjunct); the process exits without
transitioning to detection exactly when the loop ended with zero vectors
collected (third conjunct) — in particular, a trace in which every read
entry is unparsable ends in `exitedNoData` (fourth conjunct).  This exit
is the design's only *deliberate* stop, but not the only condition that
stops the process outright: the detection loop body has no exception
handler, so an uncaught exception there (e.g. a failed alert publish,
detector.py line 78) also terminates the detector. -/
theorem training_phase_spec (target : ℕ) (trace : List TrainStep) :
    (trainLoop target trace []).length ≤ target ∧
    (∀ (step : TrainStep) (rest : List TrainStep) (acc : List (List ℚ)),
      target ≤ acc.length ∨ TRAINING_TIME_BOUND ≤ step.elapsed →
      trainLoop target (step :: rest) acc = acc) ∧
    (detectorStartup target trace = .exitedNoData ↔ trainLoop target trace [] = []) ∧
    ((∀ step ∈ trace, (step.fields.map parse_vector).getD [] = []) →
      detectorStartup target trace = .exitedNoData) := by
  refine ⟨?_, ?_, ?_, ?_⟩
  · simpa using trainLoop_length_le target trace []
  · intro step rest acc h
    simp only [trainLoop]
    rw [if_neg]
    rintro ⟨h1, h2⟩
    rcases h with h | h
    · exact absurd h1 (not_lt.mpr h)
    · exact absurd h2 (not_lt.mpr h)
  · by_cases h : trainLoop target trace [] = [] <;> simp [detectorStartup, h]
  · intro h
    simp [detectorStartup, trainLoop_of_unparsable target trace h []]

/-- A trace in which no read yields a parsable fingerprint: a timed-out
read, an entry with an empty `data` payload, and an entry whose payload
is not numeric. -/
def trace0 : List TrainStep :=
  [⟨0, none⟩, ⟨5, some (some ("".toList))⟩,
   ⟨10, some (some ("not-a-vector".toList))⟩]

/-- Witness for C7: on a trace with no parsable entry the detector exits
without transitioning to detection. -/
theorem training_phase_spec_witness :
    detectorStartup 3 trace0 = .exitedNoData :=
  (training_phase_spec 3 trace0).2.2.2 (by decide)

/-- **C7 counterexample.** The zero-samples timeout is *not* the only
condition that stops the pipeline outright: here the training phase
succeeds (one parsable entry reaches the target, so the fatal
zero-samples condition does not hold and the detector transitions to
Detecting), and the very next detection iteration ends in an uncaught
exception — the entry scores anomalous and the alert publish raises,
which no handler in the loop catches — terminating the detector. -/
theorem pipeline_stops_without_fatal_condition :
    detectorStartup 1 [⟨0, some (some ("[0.25,0.75]".toList))⟩] =
      .detecting [[(1 : ℚ)/4, (3 : ℚ)/4]] ∧
    detectStep (fun _ => -1) (.error "connection reset")
      (some (some ("[0.25,0.75]".toList))) = .error "connection reset" := by
  constructor
  · simp [detectorStartup, trainLoop, TRAINING_TIME_BOUND, parse_vector, pyStrip,
      pySplit, pySplitP, isSpaceChar, pyFloat, parseUnsigned, parseMantissa,
      foldDigits, charDigit, parseAll]
    norm_num
  · rfl

/-! ## Alert publish failure (C8) -/

/-- **C8 counterexample.** A detection iteration that scores an entry
anomalous while the alert publish raises ends in an uncaught exception
(`.error`), not in a completed iteration: detector.py line 78 calls
`r.publish` with no surrounding `try`, so the claimed swallowing does
not exist and the loop does not proceed to the next entry. -/
theorem publish_failure_swallowed_counterexample :
    detectStep (fun _ => -1) (.error "publish failed")
      (some (some ("[0.5,0.5]".toList))) = .error "publish failed" := by
  rfl

/-- **C8 (amended).** A failure of the alert publish is *not* swallowed:
whenever a detection iteration reads a parsable fingerprint that the
model scores anomalous and the publish raises, the exception propagates
out of the iteration (and hence out of `main`, terminating the
detector). -/
theorem publish_failure_propagates (predict : List ℚ → ℤ) (e : String) (f : Fields)
    (hv : parse_vector f ≠ []) (hp : predict (parse_vector f) = -1) :
    detectStep predict (.error e) (some f) = .error e := by
  simp [detectStep, hv, hp]

/-- Witness for C8 (amended) at a concrete anomalous entry. -/
theorem publish_failure_propagates_witness :
    detectStep (fun _ => -1) (.error "publish failed")
      (some (some ("[1.0,0.0]".toList))) = .error "publish failed" :=
  publish_failure_propagates (fun _ => -1) "publish failed"
    (some ("[1.0,0.0]".toList)) (by decide) rfl

/-! ## Malformed and wrong-dimensionality entries (C9) -/

/-- **C9 counterexample.** `parse_vector` performs no dimensionality
check: the payload `"[0.5]"` parses to the 1-dimensional `[0.5]` even
though fingerprints are 18-dimensional, a training iteration reading it
appends it (it *does* count toward the training target), and a
detection iteration scores it instead of skipping it. -/
theorem wrong_dimensionality_counted :
    parse_vector (some ("[0.5]".toList)) = [(1 : ℚ)/2] ∧
    (parse_vector (some ("[0.5]".toList))).length ≠
      IMPORTANT_ENDPOINTS.length + STATUS_CODES.length ∧
    trainLoop 10 [⟨0, some (some ("[0.5]".toList))⟩] [] = [[(1 : ℚ)/2]] ∧
    detectStep (fun _ => -1) (.ok ()) (some (some ("[0.5]".toList))) = .ok true := by
  refine ⟨?_, by decide, ?_, rfl⟩
  · simp [parse_vector, pyStrip, pySplit, pySplitP, isSpaceChar, pyFloat,
      parseUnsigned, parseMantissa, foldDigits, charDigit, parseAll]
    norm_num
  · simp [trainLoop, TRAINING_TIME_BOUND, parse_vector, pyStrip, pySplit,
      pySplitP, isSpaceChar, pyFloat, parseUnsigned, parseMantissa,
      foldDigits, charDigit, parseAll]
    norm_num

/-- **C9 (amended).** Entries whose payload fails to parse — missing or
empty `data` field, non-numeric tokens, an unbalanced bracket — are
skipped without crashing: a training iteration leaves the accumulated
vectors unchanged (they do not count toward the target) and a detection
iteration completes without scoring or alerting, identically.  (Entries
of the wrong dimensionality whose payload still parses as a float list
are *not* skipped — see the counterexample.) -/
theorem malformed_entries_skipped (f : Fields) (hf : parse_vector f = []) :
    (∀ (target : ℕ) (t : ℚ) (rest : List TrainStep) (acc : List (List ℚ)),
      acc.length < target → t < TRAINING_TIME_BOUND →
      trainLoop target (⟨t, some f⟩ :: rest) acc = trainLoop target rest acc) ∧
    (∀ (predict : List ℚ → ℤ) (pub : Except String Unit),
      detectStep predict pub (some f) = .ok false) := by
  constructor
  · intro target t rest acc h1 h2
    simp only [trainLoop]
    rw [if_pos ⟨h1, h2⟩]
    simp [hf]
  · intro predict pub
    simp [detectStep, hf]

/-- Witness for C9 (amended): the bracket-unbalanced payload `"[0.5"` is
skipped by a training iteration and by a detection iteration. -/
theorem malformed_entries_skipped_witness :
    trainLoop 10 [⟨0, some (some ("[0.5".toList))⟩] [] = trainLoop 10 [] [] ∧
    detectStep (fun _ => -1) (.ok ()) (some (some ("[0.5".toList))) = .ok false :=
  ⟨(malformed_entries_skipped (some ("[0.5".toList)) (by decide)).1 10 0 [] []
      (by decide) (by norm_num [TRAINING_TIME_BOUND]),
   (malformed_entries_skipped (some ("[0.5".toList)) (by decide)).2 _ _⟩

/-! ## Decimal digit string lemmas (towards C4 and C5) -/

theorem charDigit_digitChar (d : ℕ) (h : d < 10) : charDigit (digitChar d) = d := by
  interval_cases d <;> rfl

theorem isDigit_digitChar (d : ℕ) (h : d < 10) : (digitChar d).isDigit = true := by
  interval_cases d <;> rfl

theorem length_fixedDigits (w m : ℕ) : (fixedDigits w m).length = w := by
  induction w generalizing m with
  | zero => rfl
  | succ w ih => simp [fixedDigits, ih]

theorem all_isDigit_fixedDigits (w m : ℕ) : ∀ c ∈ fixedDigits w m, c.isDigit = true := by
  induction w generalizing m with
  | zero => simp [fixedDigits]
  | succ w ih =>
    intro c hc
    simp only [fixedDigits, List.mem_append, List.mem_singleton] at hc
    rcases hc with hc | hc
    · exact ih _ c hc
    · subst hc
      exact isDigit_digitChar _ (Nat.mod_lt _ (by norm_num))

theorem foldDigits_append_digit (s : List Char) (c : Char) :
    foldDigits (s ++ [c]) = 10 * foldDigits s + charDigit c := by
  simp [foldDigits, List.foldl_append]

theorem foldDigits_fixedDigits (w m : ℕ) : foldDigits (fixedDigits w m) = m % 10 ^ w := by
  induction w generalizing m with
  | zero => simp [fixedDigits, foldDigits, Nat.mod_one]
  | succ w ih =>
    rw [fixedDigits, foldDigits_append_digit, ih,
      charDigit_digitChar _ (Nat.mod_lt _ (by norm_num))]
    have hp : (0 : ℕ) < 10 ^ w := pow_pos (by norm_num) w
    have hr : m % 10 < 10 := Nat.mod_lt _ (by norm_num)
    have hq : m / 10 % 10 ^ w < 10 ^ w := Nat.mod_lt _ hp
    have h1 : m % 10 ^ (w + 1) = (10 * (m / 10) + m % 10) % (10 * 10 ^ w) := by
      rw [pow_succ, mul_comm (10 ^ w) 10]
      nth_rewrite 1 [← Nat.div_add_mod m 10]
      rfl
    have h2 : (10 * (m / 10) + m % 10) % (10 * 10 ^ w)
        = 10 * (m / 10 % 10 ^ w) + m % 10 := by
      rw [Nat.add_mod, Nat.mul_mod_mul_left,
        Nat.mod_eq_of_lt (show m % 10 < 10 * 10 ^ w by omega),
        Nat.mod_eq_of_lt (show 10 * (m / 10 % 10 ^ w) + m % 10 < 10 * 10 ^ w by omega)]
    rw [h1, h2]

theorem foldDigits_natDigits (n : ℕ) : foldDigits (natDigits n) = n := by
  rw [natDigits, foldDigits_fixedDigits]
  exact Nat.mod_eq_of_lt (Nat.lt_pow_succ_log_self (by norm_num) n)

theorem length_natDigits (n : ℕ) : (natDigits n).length = numDigits n :=
  length_fixedDigits _ _

theorem natDigits_ne_nil (n : ℕ) : natDigits n ≠ [] := by
  intro h
  have h2 := length_natDigits n
  rw [h] at h2
  simp [numDigits] at h2

theorem all_isDigit_natDigits (n : ℕ) : ∀ c ∈ natDigits n, c.isDigit = true :=
  all_isDigit_fixedDigits _ _

theorem stripTrailingZeros_spec (s : List Char) :
    s = stripTrailingZeros s ++
      List.replicate (s.reverse.takeWhile (fun c => c = '0')).length '0' := by
  conv_lhs =>
    rw [← s.reverse_reverse,
      ← List.takeWhile_append_dropWhile (fun c => decide (c = '0')) s.reverse]
  rw [List.reverse_append, stripTrailingZeros]
  congr 1
  have h : s.reverse.takeWhile (fun c => decide (c = '0')) =
      List.replicate (s.reverse.takeWhile (fun c => decide (c = '0'))).length '0' :=
    List.eq_replicate_of_mem fun b hb => by
      simpa using List.mem_takeWhile_imp hb
  conv_lhs => rw [h]
  rw [List.reverse_replicate]

theorem charDigit_zero_char : charDigit '0' = 0 := rfl

theorem foldDigits_append_replicate_zero (t : List Char) (k : ℕ) :
    foldDigits (t ++ List.replicate k '0') = foldDigits t * 10 ^ k := by
  induction k with
  | zero => simp
  | succ k ih =>
    have h : t ++ List.replicate (k + 1) '0' = (t ++ List.replicate k '0') ++ ['0'] := by
      rw [List.replicate_succ', ← List.append_assoc]
    rw [h, foldDigits_append_digit, ih, charDigit_zero_char, pow_succ]
    ring

theorem foldDigits_stripTrailingZeros (s : List Char) :
    ((foldDigits (stripTrailingZeros s) : ℕ) : ℚ) / 10 ^ (stripTrailingZeros s).length =
      ((foldDigits s : ℕ) : ℚ) / 10 ^ s.length := by
  have hk := stripTrailingZeros_spec s
  set k := (s.reverse.takeWhile (fun c => c = '0')).length
  conv_rhs => rw [hk]
  rw [foldDigits_append_replicate_zero, List.length_append, List.length_replicate]
  have h10 : ((10 : ℚ) ^ k) ≠ 0 := by positivity
  push_cast
  rw [pow_add, ← mul_div_mul_right _ (10 ^ (stripTrailingZeros s).length : ℚ) h10]

theorem mem_stripTrailingZeros (s : List Char) (c : Char)
    (h : c ∈ stripTrailingZeros s) : c ∈ s :=
  (stripTrailingZeros_spec s).symm ▸ List.mem_append_left _ h

/-! ## Splitter lemmas -/

theorem pySplitP_ne_nil (p : Char → Bool) (s : List Char) : pySplitP p s ≠ [] := by
  induction s with
  | nil => simp [pySplitP]
  | cons c rest ih =>
    simp only [pySplitP]
    split
    · simp
    · cases h : pySplitP p rest with
      | nil => simp
      | cons t ts => simp

theorem pySplitP_of_no_sep (p : Char → Bool) (s : List Char)
    (h : ∀ c ∈ s, p c = false) : pySplitP p s = [s] := by
  induction s with
  | nil => rfl
  | cons c rest ih =>
    have hc : p c = false := h c (by simp)
    rw [pySplitP, if_neg (by simp [hc]), ih (fun d hd => h d (by simp [hd]))]

theorem pySplitP_append_sep (p : Char → Bool) (a : List Char) (c : Char)
    (t : List Char) (hc : p c = true) (ha : ∀ d ∈ a, p d = false) :
    pySplitP p (a ++ c :: t) = a :: pySplitP p t := by
  induction a with
  | nil => simp [pySplitP, hc]
  | cons d a' ih =>
    have hd : p d = false := ha d (by simp)
    rw [List.cons_append, pySplitP, if_neg (by simp [hd]),
      ih (fun x hx => ha x (by simp [hx]))]

theorem pySplit_joinComma : ∀ (parts : List (List Char)), parts ≠ [] →
    (∀ s ∈ parts, ',' ∉ s) → pySplit ',' (joinComma parts) = parts
  | [], h, _ => absurd rfl h
  | [s], _, h => by
    rw [joinComma, pySplit]
    exact pySplitP_of_no_sep _ s fun c hc =>
      decide_eq_false fun (he : c = ',') => h s (by simp) (he ▸ hc)
  | s :: s' :: rest, _, h => by
    rw [joinComma, pySplit,
      pySplitP_append_sep _ s ',' (joinComma (s' :: rest)) (by simp)
        (fun c hc => decide_eq_false fun (he : c = ',') => h s (by simp) (he ▸ hc))]
    rw [show pySplitP (fun c => decide (c = ',')) (joinComma (s' :: rest)) =
        pySplit ',' (joinComma (s' :: rest)) from rfl]
    rw [pySplit_joinComma (s' :: rest) (List.cons_ne_nil s' rest)
      (fun x hx => h x (by simp [hx]))]
    exact fun h' => absurd h' (List.cons_ne_nil s' rest)

/-! ## Character classes of the rendered floats -/

theorem strMicro_ne_nil (n : ℕ) : strMicro n ≠ [] := by
  simp only [strMicro]
  split_ifs <;> simp [List.append_eq_nil]

theorem strMicro_chars (n : ℕ) :
    ∀ c ∈ strMicro n, c.isDigit = true ∨ c = '.' ∨ c = 'e' ∨ c = '-' := by
  intro c hc
  by_cases h0 : n = 0
  · simp only [strMicro, if_pos h0, List.mem_cons, List.not_mem_nil, or_false] at hc
    rcases hc with rfl | rfl | rfl
    · exact Or.inl (by decide)
    · exact Or.inr (Or.inl rfl)
    · exact Or.inl (by decide)
  · by_cases h100 : 100 ≤ n
    · simp only [strMicro, if_neg h0, if_pos h100, List.mem_append, List.mem_cons] at hc
      rcases hc with hc | rfl | hc
      · exact Or.inl (all_isDigit_natDigits _ c hc)
      · exact Or.inr (Or.inl rfl)
      · split at hc
        · simp only [List.mem_cons, List.not_mem_nil, or_false] at hc
          subst hc
          exact Or.inl (by decide)
        · exact Or.inl (all_isDigit_fixedDigits 6 _ c (mem_stripTrailingZeros _ c hc))
    · simp only [strMicro, if_neg h0, if_neg h100, List.mem_append, List.mem_cons,
        List.not_mem_nil, or_false] at hc
      rcases hc with hc | rfl | rfl | rfl | rfl
      · rcases hnd : natDigits (n / 10 ^ (if n % 10 = 0 then 1 else 0)) with _ | ⟨c0, rest⟩
        · rw [hnd] at hc
          cases hc
        · rw [hnd] at hc
          have hdig : ∀ x ∈ c0 :: rest, x.isDigit = true := by
            rw [← hnd]; exact all_isDigit_natDigits _
          cases rest with
          | nil =>
            simp only [List.mem_cons, List.not_mem_nil, or_false] at hc
            subst hc
            exact Or.inl (hdig c (by simp))
          | cons c1 rest' =>
            simp only [List.mem_cons] at hc
            rcases hc with rfl | rfl | hc
            · exact Or.inl (hdig c (by simp))
            · exact Or.inr (Or.inl rfl)
            · exact Or.inl (hdig c (by simp [hc]))
      · exact Or.inr (Or.inr (Or.inl rfl))
      · exact Or.inr (Or.inr (Or.inr rfl))
      · exact Or.inl (by decide)
      · exact Or.inl (isDigit_digitChar _ (Nat.mod_lt _ (by norm_num)))

theorem not_special_of_good (c : Char)
    (h : c.isDigit = true ∨ c = '.' ∨ c = 'e' ∨ c = '-') :
    c ≠ ',' ∧ isSpaceChar c = false ∧ c ≠ '[' ∧ c ≠ ']' ∧ c ≠ '+' := by
  have hspace : c.isDigit = true → isSpaceChar c = false := by
    intro hd
    by_contra hs
    rw [Bool.not_eq_false] at hs
    simp only [isSpaceChar, Bool.or_eq_true, decide_eq_true_eq] at hs
    rcases hs with rfl | rfl | rfl | rfl | rfl | rfl <;> exact absurd hd (by decide)
  rcases h with h | rfl | rfl | rfl
  · refine ⟨?_, hspace h, ?_, ?_, ?_⟩ <;> first
      | (rintro rfl; exact absurd h (by decide))
  · exact ⟨by decide, by decide, by decide, by decide, by decide⟩
  · exact ⟨by decide, by decide, by decide, by decide, by decide⟩
  · exact ⟨by decide, by decide, by decide, by decide, by decide⟩

theorem dropWhile_eq_self_of_none (p : Char → Bool) (s : List Char)
    (h : ∀ c ∈ s, p c = false) : s.dropWhile p = s := by
  cases s with
  | nil => rfl
  | cons c t => exact List.dropWhile_cons_of_neg (by simp [h c (by simp)])

theorem pyStrip_eq_self (s : List Char) (h : ∀ c ∈ s, isSpaceChar c = false) :
    pyStrip s = s := by
  unfold pyStrip
  rw [dropWhile_eq_self_of_none _ _ h,
    dropWhile_eq_self_of_none _ _ (fun c hc => h c (by simpa using hc)),
    List.reverse_reverse]

/-! ## Reduction lemmas for the float parser -/

theorem pyFloat_eq_parseUnsigned (s : List Char)
    (hsp : ∀ c ∈ s, isSpaceChar c = false)
    (hhd : ∀ c t, s = c :: t → c ≠ '-' ∧ c ≠ '+') :
    pyFloat s = parseUnsigned s := by
  unfold pyFloat
  rw [pyStrip_eq_self s hsp]
  cases s with
  | nil => rfl
  | cons c t =>
    rcases hhd c t rfl with ⟨h1, h2⟩
    dsimp only
    split
    · next rest heq =>
      exact absurd (List.head_eq_of_cons_eq heq) h1
    · next rest heq =>
      exact absurd (List.head_eq_of_cons_eq heq) h2
    · rfl

theorem parseMantissa_all_digits (m : List Char)
    (hm : ∀ c ∈ m, c.isDigit = true) (hne : m ≠ []) :
    parseMantissa m = some ((foldDigits m : ℕ) : ℚ) := by
  unfold parseMantissa
  rw [show pySplit '.' m = [m] from
    pySplitP_of_no_sep _ m fun c hc =>
      decide_eq_false fun (he : c = '.') =>
        absurd (hm c hc) (by rw [he]; decide)]
  dsimp only
  rw [if_pos ⟨hne, List.all_eq_true.2 hm⟩]

theorem parseMantissa_digits_dot (ip fp : List Char)
    (hip : ∀ c ∈ ip, c.isDigit = true) (hfp : ∀ c ∈ fp, c.isDigit = true)
    (hne : ip ++ fp ≠ []) :
    parseMantissa (ip ++ '.' :: fp) =
      some (((foldDigits ip : ℕ) : ℚ) + ((foldDigits fp : ℕ) : ℚ) / 10 ^ fp.length) := by
  unfold parseMantissa
  rw [show pySplit '.' (ip ++ '.' :: fp) = [ip, fp] from ?_]
  · dsimp only
    rw [if_pos ⟨hne, List.all_eq_true.2 hip, List.all_eq_true.2 hfp⟩]
  · rw [pySplit, pySplitP_append_sep _ ip '.' fp (by simp)
      (fun d hd => decide_eq_false fun (he : d = '.') =>
        absurd (hip d hd) (by rw [he]; decide))]
    rw [pySplitP_of_no_sep _ fp fun c hc =>
      decide_eq_false fun (he : c = '.') =>
        absurd (hfp c hc) (by rw [he]; decide)]

theorem parseUnsigned_no_exp (s : List Char)
    (h : ∀ c ∈ s, ((c = 'e' : Bool) || (c = 'E' : Bool)) = false) :
    parseUnsigned s = parseMantissa s := by
  unfold parseUnsigned
  rw [pySplitP_of_no_sep _ s h]

theorem parseExp_neg_two_digit (d : ℕ) (hd : d < 10) :
    parseExp ('-' :: '0' :: [digitChar d]) = some (-(d : ℤ)) := by
  interval_cases d <;> decide

theorem not_e_of_digit (c : Char) (h : c.isDigit = true) :
    ((c = 'e' : Bool) || (c = 'E' : Bool)) = false := by
  have h1 : c ≠ 'e' := fun he => absurd h (by rw [he]; decide)
  have h2 : c ≠ 'E' := fun he => absurd h (by rw [he]; decide)
  simp [h1, h2]

theorem foldDigits_singleton (c : Char) : foldDigits [c] = charDigit c := by
  simp [foldDigits]

theorem foldDigits_replicate_zero (k : ℕ) :
    foldDigits (List.replicate k '0') = 0 := by
  have h := foldDigits_append_replicate_zero [] k
  simpa [foldDigits] using h

theorem strMicro_head_digit (n : ℕ) (c : Char) (t : List Char)
    (h : strMicro n = c :: t) : c.isDigit = true := by
  by_cases h0 : n = 0
  · simp only [strMicro, if_pos h0, List.cons.injEq] at h
    rw [← h.1]; decide
  · by_cases h100 : 100 ≤ n
    · simp only [strMicro, if_neg h0, if_pos h100] at h
      rcases hnd : natDigits (n / 10 ^ 6) with _ | ⟨c0, r⟩
      · exact absurd hnd (natDigits_ne_nil _)
      · rw [hnd, List.cons_append, List.cons.injEq] at h
        rw [← h.1]
        exact all_isDigit_natDigits _ c0 (by rw [hnd]; simp)
    · simp only [strMicro, if_neg h0, if_neg h100] at h
      rcases hnd : natDigits (n / 10 ^ (if n % 10 = 0 then 1 else 0)) with _ | ⟨c0, r⟩
      · exact absurd hnd (natDigits_ne_nil _)
      · rw [hnd] at h
        have hc0 : c0.isDigit = true := all_isDigit_natDigits _ c0 (by rw [hnd]; simp)
        cases r with
        | nil =>
          rw [show (match [c0] with
              | [] => ([] : List Char)
              | [c] => [c]
              | c :: rest => c :: '.' :: rest) = [c0] from rfl,
            List.singleton_append, List.cons.injEq] at h
          rw [← h.1]; exact hc0
        | cons c1 r' =>
          rw [show (match c0 :: c1 :: r' with
              | [] => ([] : List Char)
              | [c] => [c]
              | c :: rest => c :: '.' :: rest) = c0 :: '.' :: c1 :: r' from rfl,
            List.cons_append, List.cons.injEq] at h
          rw [← h.1]; exact hc0

theorem pyFloat_strMicro_unsigned (n : ℕ) :
    pyFloat (strMicro n) = parseUnsigned (strMicro n) :=
  pyFloat_eq_parseUnsigned _
    (fun c hc => (not_special_of_good c (strMicro_chars n c hc)).2.1)
    (fun c t h => by
      have hd := strMicro_head_digit n c t h
      exact ⟨fun he => absurd hd (by rw [he]; decide),
             fun he => absurd hd (by rw [he]; decide)⟩)

theorem parseUnsigned_mant_exp (mant : List Char) (mv : ℚ) (d : ℕ) (hd : d < 10)
    (hmant : ∀ c ∈ mant, ((c = 'e' : Bool) || (c = 'E' : Bool)) = false)
    (hpm : parseMantissa mant = some mv) :
    parseUnsigned (mant ++ 'e' :: '-' :: '0' :: [digitChar d]) =
      some (mv * (10 : ℚ) ^ (-(d : ℤ))) := by
  have hns : ∀ c ∈ '-' :: '0' :: [digitChar d],
      ((c = 'e' : Bool) || (c = 'E' : Bool)) = false := by
    intro c hc
    simp only [List.mem_cons, List.not_mem_nil, or_false] at hc
    rcases hc with rfl | rfl | rfl
    · decide
    · decide
    · exact not_e_of_digit _ (isDigit_digitChar d hd)
  unfold parseUnsigned
  rw [pySplitP_append_sep _ mant 'e' _ (by decide) hmant,
    pySplitP_of_no_sep _ ('-' :: '0' :: [digitChar d]) hns]
  dsimp only
  rw [hpm, parseExp_neg_two_digit d hd]

theorem pyFloat_strMicro_fixed (n : ℕ) (h0 : n ≠ 0) (h100 : 100 ≤ n) :
    parseUnsigned (strMicro n) = some ((n : ℚ) / 10 ^ 6) := by
  have hstr : strMicro n = natDigits (n / 10 ^ 6) ++ '.' ::
      (if stripTrailingZeros (fixedDigits 6 (n % 10 ^ 6)) = [] then ['0']
       else stripTrailingZeros (fixedDigits 6 (n % 10 ^ 6))) := by
    simp only [strMicro, if_neg h0, if_pos h100]
  set F := stripTrailingZeros (fixedDigits 6 (n % 10 ^ 6)) with hFdef
  have hFd : ∀ c ∈ (if F = [] then ['0'] else F), c.isDigit = true := by
    split
    · intro c hc
      simp only [List.mem_cons, List.not_mem_nil, or_false] at hc
      subst hc; decide
    · intro c hc
      exact all_isDigit_fixedDigits 6 _ c (mem_stripTrailingZeros _ c hc)
  have hno : ∀ c ∈ natDigits (n / 10 ^ 6) ++ '.' :: (if F = [] then ['0'] else F),
      ((c = 'e' : Bool) || (c = 'E' : Bool)) = false := by
    intro c hc
    simp only [List.mem_append, List.mem_cons] at hc
    rcases hc with hc | rfl | hc
    · exact not_e_of_digit _ (all_isDigit_natDigits _ c hc)
    · decide
    · exact not_e_of_digit _ (hFd c hc)
  have hne : natDigits (n / 10 ^ 6) ++ (if F = [] then ['0'] else F) ≠ [] :=
    fun h => natDigits_ne_nil _ (List.append_eq_nil.mp h).1
  rw [hstr, parseUnsigned_no_exp _ hno,
    parseMantissa_digits_dot _ _ (all_isDigit_natDigits _) hFd hne]
  congr 1
  rw [foldDigits_natDigits]
  have hmlt : n % 10 ^ 6 < 10 ^ 6 := Nat.mod_lt _ (by norm_num)
  have hdm : 10 ^ 6 * (n / 10 ^ 6) + n % 10 ^ 6 = n := Nat.div_add_mod n (10 ^ 6)
  by_cases hF0 : F = []
  · rw [if_pos hF0]
    have hffold := foldDigits_fixedDigits 6 (n % 10 ^ 6)
    rw [Nat.mod_eq_of_lt hmlt] at hffold
    have hrep := stripTrailingZeros_spec (fixedDigits 6 (n % 10 ^ 6))
    rw [← hFdef, hF0, List.nil_append] at hrep
    have hm0 : n % 10 ^ 6 = 0 := by
      rw [hrep, foldDigits_replicate_zero] at hffold
      omega
    have hnq : (n : ℚ) = 10 ^ 6 * ((n / 10 ^ 6 : ℕ) : ℚ) := by
      exact_mod_cast congrArg (Nat.cast (R := ℚ)) (by omega : n = 10 ^ 6 * (n / 10 ^ 6))
    rw [List.length_singleton, foldDigits_singleton, charDigit_zero_char, hnq]
    push_cast
    field_simp
  · rw [if_neg hF0]
    have hfs := foldDigits_stripTrailingZeros (fixedDigits 6 (n % 10 ^ 6))
    rw [foldDigits_fixedDigits, length_fixedDigits, Nat.mod_eq_of_lt hmlt] at hfs
    rw [← hFdef] at hfs
    rw [hfs]
    have hnq : (n : ℚ) = 10 ^ 6 * ((n / 10 ^ 6 : ℕ) : ℚ) + ((n % 10 ^ 6 : ℕ) : ℚ) := by
      exact_mod_cast congrArg (Nat.cast (R := ℚ)) hdm.symm
    rw [hnq]
    field_simp
    ring

theorem pyFloat_strMicro_sci (n : ℕ) (h0 : n ≠ 0) (h100 : ¬ 100 ≤ n) :
    parseUnsigned (strMicro n) = some ((n : ℚ) / 10 ^ 6) := by
  by_cases hz : n % 10 = 0
  · -- one trailing zero is stripped: n = 10·d with d a single digit
    have hd10 : n / 10 < 10 := by omega
    have hnum : numDigits (n / 10) = 1 := by
      rw [numDigits, Nat.log_eq_zero_iff.2 (Or.inl hd10)]
    have hnat : natDigits (n / 10) = [digitChar (n / 10)] := by
      rw [natDigits, hnum]
      show fixedDigits 1 (n / 10) = _
      rw [fixedDigits, fixedDigits, Nat.mod_eq_of_lt hd10, List.nil_append]
    have hstr : strMicro n =
        [digitChar (n / 10)] ++ 'e' :: '-' :: '0' :: [digitChar 5] := by
      simp only [strMicro, if_neg h0, if_neg h100, if_pos hz, hnat, pow_one, hnum]
    have hpm : parseMantissa [digitChar (n / 10)] = some ((n / 10 : ℕ) : ℚ) := by
      rw [parseMantissa_all_digits _
        (by intro c hc
            simp only [List.mem_cons, List.not_mem_nil, or_false] at hc
            subst hc
            exact isDigit_digitChar _ hd10)
        (by simp), foldDigits_singleton, charDigit_digitChar _ hd10]
    rw [hstr, parseUnsigned_mant_exp _ _ 5 (by norm_num)
      (by intro c hc
          simp only [List.mem_cons, List.not_mem_nil, or_false] at hc
          subst hc
          exact not_e_of_digit _ (isDigit_digitChar _ hd10)) hpm]
    congr 1
    have hnq : (n : ℚ) = 10 * ((n / 10 : ℕ) : ℚ) := by
      exact_mod_cast congrArg (Nat.cast (R := ℚ)) (by omega : n = 10 * (n / 10))
    rw [hnq, zpow_neg]
    rw [show ((5 : ℕ) : ℤ) = (5 : ℤ) from rfl, show ((10 : ℚ) ^ (5 : ℤ)) = (10 : ℚ) ^ (5 : ℕ) from zpow_natCast 10 5]
    field_simp
    ring
  · by_cases hn10 : n < 10
    · -- single significant digit, exponent -6
      have hnum : numDigits n = 1 := by
        rw [numDigits, Nat.log_eq_zero_iff.2 (Or.inl hn10)]
      have hnat : natDigits n = [digitChar n] := by
        rw [natDigits, hnum]
        show fixedDigits 1 n = _
        rw [fixedDigits, fixedDigits, Nat.mod_eq_of_lt hn10, List.nil_append]
      have hstr : strMicro n = [digitChar n] ++ 'e' :: '-' :: '0' :: [digitChar 6] := by
        simp only [strMicro, if_neg h0, if_neg h100, if_neg hz, hnat, pow_zero,
          Nat.div_one, hnum]
      have hpm : parseMantissa [digitChar n] = some ((n : ℕ) : ℚ) := by
        rw [parseMantissa_all_digits _
          (by intro c hc
              simp only [List.mem_cons, List.not_mem_nil, or_false] at hc
              subst hc
              exact isDigit_digitChar _ hn10)
          (by simp), foldDigits_singleton, charDigit_digitChar _ hn10]
      rw [hstr, parseUnsigned_mant_exp _ _ 6 (by norm_num)
        (by intro c hc
            simp only [List.mem_cons, List.not_mem_nil, or_false] at hc
            subst hc
            exact not_e_of_digit _ (isDigit_digitChar _ hn10)) hpm]
      congr 1
      rw [zpow_neg]
      rw [show ((6 : ℕ) : ℤ) = (6 : ℤ) from rfl, show ((10 : ℚ) ^ (6 : ℤ)) = (10 : ℚ) ^ (6 : ℕ) from zpow_natCast 10 6]
      field_simp
    · -- two significant digits, exponent -5
      have h10 : 10 ≤ n := le_of_not_lt hn10
      have h100' : n < 100 := by omega
      have hd10 : n / 10 < 10 := by omega
      have hm10 : n % 10 < 10 := by omega
      have hnum : numDigits n = 2 := by
        rw [numDigits, @Nat.log_eq_of_pow_le_of_lt_pow 10 1 n (by simpa using h10)
          (by simpa using h100')]
      have hnat : natDigits n = [digitChar (n / 10), digitChar (n % 10)] := by
        rw [natDigits, hnum]
        show fixedDigits 2 n = _
        rw [fixedDigits, fixedDigits, fixedDigits, Nat.mod_eq_of_lt hd10]
        simp
      have hstr : strMicro n =
          (digitChar (n / 10) :: '.' :: [digitChar (n % 10)]) ++
            'e' :: '-' :: '0' :: [digitChar 5] := by
        simp only [strMicro, if_neg h0, if_neg h100, if_neg hz, hnat, pow_zero,
          Nat.div_one, hnum]
      have hpm : parseMantissa (digitChar (n / 10) :: '.' :: [digitChar (n % 10)]) =
          some (((n / 10 : ℕ) : ℚ) + ((n % 10 : ℕ) : ℚ) / 10 ^ 1) := by
        have h := parseMantissa_digits_dot [digitChar (n / 10)] [digitChar (n % 10)]
          (by intro c hc
              simp only [List.mem_cons, List.not_mem_nil, or_false] at hc
              subst hc
              exact isDigit_digitChar _ hd10)
          (by intro c hc
              simp only [List.mem_cons, List.not_mem_nil, or_false] at hc
              subst hc
              exact isDigit_digitChar _ hm10)
          (by simp)
        rw [List.singleton_append] at h
        rw [h, foldDigits_singleton, foldDigits_singleton,
          charDigit_digitChar _ hd10, charDigit_digitChar _ hm10,
          List.length_singleton]
      rw [hstr, parseUnsigned_mant_exp _ _ 5 (by norm_num)
        (by intro c hc
            simp only [List.mem_cons, List.not_mem_nil, or_false] at hc
            rcases hc with rfl | rfl | rfl
            · exact not_e_of_digit _ (isDigit_digitChar _ hd10)
            · decide
            · exact not_e_of_digit _ (isDigit_digitChar _ hm10)) hpm]
      congr 1
      have hnq : (n : ℚ) = 10 * ((n / 10 : ℕ) : ℚ) + ((n % 10 : ℕ) : ℚ) := by
        exact_mod_cast congrArg (Nat.cast (R := ℚ))
          (by omega : n = 10 * (n / 10) + n % 10)
      rw [hnq, zpow_neg]
      rw [show ((5 : ℕ) : ℤ) = (5 : ℤ) from rfl, show ((10 : ℚ) ^ (5 : ℤ)) = (10 : ℚ) ^ (5 : ℕ) from zpow_natCast 10 5]
      field_simp
      ring

theorem pyFloat_strMicro (n : ℕ) :
    pyFloat (strMicro n) = some ((n : ℚ) / 10 ^ 6) := by
  rw [pyFloat_strMicro_unsigned]
  by_cases h0 : n = 0
  · subst h0
    have hstr : strMicro 0 = ['0'] ++ '.' :: ['0'] := by
      simp [strMicro]
    rw [hstr, parseUnsigned_no_exp _ (by decide),
      parseMantissa_digits_dot ['0'] ['0'] (by decide) (by decide) (by decide)]
    norm_num [foldDigits_singleton, charDigit_zero_char]
  · by_cases h100 : 100 ≤ n
    · exact pyFloat_strMicro_fixed n h0 h100
    · exact pyFloat_strMicro_sci n h0 h100

/-! ## From a serialised vector back to the parsed vector -/

theorem roundHalfEven_nonneg (x : ℚ) (h : 0 ≤ x) : 0 ≤ roundHalfEven x := by
  have hf : (0 : ℤ) ≤ ⌊x⌋ := Int.floor_nonneg.2 h
  simp only [roundHalfEven]
  split_ifs <;> omega

theorem roundHalfEven_intCast (z : ℤ) : roundHalfEven (z : ℚ) = z := by
  unfold roundHalfEven
  rw [Int.floor_intCast]
  norm_num

theorem roundHalfEven_close (y : ℚ) : |(roundHalfEven y : ℚ) - y| ≤ 1 / 2 := by
  have h1 : ((⌊y⌋ : ℤ) : ℚ) ≤ y := Int.floor_le y
  have h2 : y < ((⌊y⌋ : ℤ) : ℚ) + 1 := Int.lt_floor_add_one y
  simp only [roundHalfEven]
  split_ifs with ha hb hc <;> rw [abs_le] <;> constructor <;> push_cast <;> linarith

theorem pyStrRound6_of_nonneg (x : ℚ) (h : 0 ≤ x) :
    pyStrRound6 x = strMicro (roundHalfEven (x * 10 ^ 6)).toNat := by
  have hn : 0 ≤ roundHalfEven (x * 10 ^ 6) :=
    roundHalfEven_nonneg _ (mul_nonneg h (by norm_num))
  simp only [pyStrRound6]
  rw [if_neg (not_lt.2 hn)]

theorem pyFloat_pyStrRound6 (x : ℚ) (h : 0 ≤ x) :
    pyFloat (pyStrRound6 x) =
      some (((roundHalfEven (x * 10 ^ 6) : ℤ) : ℚ) / 10 ^ 6) := by
  have hn : 0 ≤ roundHalfEven (x * 10 ^ 6) :=
    roundHalfEven_nonneg _ (mul_nonneg h (by norm_num))
  rw [pyStrRound6_of_nonneg x h, pyFloat_strMicro]
  congr 2
  exact_mod_cast congrArg (Int.cast (R := ℚ)) (Int.toNat_of_nonneg hn)

theorem parseAll_map_pyStrRound6 (v : List ℚ) (hv : ∀ x ∈ v, 0 ≤ x) :
    parseAll (v.map pyStrRound6) =
      some (v.map (fun x => ((roundHalfEven (x * 10 ^ 6) : ℤ) : ℚ) / 10 ^ 6)) := by
  induction v with
  | nil => rfl
  | cons x t ih =>
    simp only [List.map_cons, parseAll]
    rw [pyFloat_pyStrRound6 x (hv x (by simp)), ih (fun y hy => hv y (by simp [hy]))]

theorem mem_joinComma : ∀ (parts : List (List Char)) (c : Char),
    c ∈ joinComma parts → c = ',' ∨ ∃ s ∈ parts, c ∈ s
  | [], c, h => by simp [joinComma] at h
  | [s], c, h => by
    rw [joinComma] at h
    exact Or.inr ⟨s, by simp, h⟩
  | s :: s' :: rest, c, h => by
    have hj : joinComma (s :: s' :: rest) = s ++ ',' :: joinComma (s' :: rest) := rfl
    rw [hj, List.mem_append, List.mem_cons] at h
    rcases h with h | rfl | h
    · exact Or.inr ⟨s, by simp, h⟩
    · exact Or.inl rfl
    · rcases mem_joinComma (s' :: rest) c h with h' | ⟨u, hu, hc⟩
      · exact Or.inl h'
      · exact Or.inr ⟨u, by simp [hu], hc⟩

/-- Parsing the exact `data` string the Builder writes recovers, for a
non-negative vector, exactly the per-element roundings to millionths. -/
theorem parse_write_stream_data (v : List ℚ) (hv : ∀ x ∈ v, 0 ≤ x) :
    parse_vector (some (write_stream_data v)) =
      v.map (fun x => ((roundHalfEven (x * 10 ^ 6) : ℤ) : ℚ) / 10 ^ 6) := by
  cases v with
  | nil => rfl
  | cons x t =>
    have hv' : ∀ y ∈ x :: t, (0 : ℚ) ≤ y := hv
    set parts := (x :: t).map pyStrRound6 with hparts
    have hpartsStr : ∀ s ∈ parts, ∃ n : ℕ, s = strMicro n := by
      intro s hs
      rw [hparts] at hs
      simp only [List.mem_map] at hs
      obtain ⟨y, hy, rfl⟩ := hs
      exact ⟨_, pyStrRound6_of_nonneg y (hv' y hy)⟩
    have hgood : ∀ s ∈ parts, ∀ c ∈ s,
        c.isDigit = true ∨ c = '.' ∨ c = 'e' ∨ c = '-' := by
      intro s hs c hc
      obtain ⟨n, rfl⟩ := hpartsStr s hs
      exact strMicro_chars n c hc
    have hne : ∀ s ∈ parts, s ≠ [] := by
      intro s hs
      obtain ⟨n, rfl⟩ := hpartsStr s hs
      exact strMicro_ne_nil n
    have hnc : ∀ s ∈ parts, ',' ∉ s :=
      fun s hs hmem => (not_special_of_good ',' (hgood s hs ',' hmem)).1 rfl
    have hnospace_mid : ∀ c ∈ joinComma parts, isSpaceChar c = false := by
      intro c hc
      rcases mem_joinComma parts c hc with rfl | ⟨s, hs, hcs⟩
      · decide
      · exact (not_special_of_good c (hgood s hs c hcs)).2.1
    have hnospace : ∀ c ∈ '[' :: (joinComma parts ++ [']']), isSpaceChar c = false := by
      intro c hc
      simp only [List.mem_cons, List.mem_append, List.not_mem_nil, or_false] at hc
      rcases hc with rfl | hc | rfl
      · decide
      · exact hnospace_mid c hc
      · decide
    show parse_vector (some ('[' :: (joinComma parts ++ [']']))) = _
    rw [parse_vector]
    rw [if_neg (by simp : ¬ ('[' :: (joinComma parts ++ [']']) : List Char) = [])]
    rw [pyStrip_eq_self _ hnospace]
    have hlast : ('[' :: (joinComma parts ++ [']'])).getLast? = some ']' := by
      rw [show ('[' :: (joinComma parts ++ [']']) : List Char) =
        ('[' :: joinComma parts) ++ [']'] from rfl, List.getLast?_concat]
    dsimp only
    rw [if_pos ⟨rfl, hlast⟩]
    have hdrop : (('[' :: (joinComma parts ++ [']'])).drop 1).dropLast = joinComma parts := by
      rw [List.drop_succ_cons, List.drop_zero, List.dropLast_concat]
    rw [hdrop]
    rw [show pySplit ',' (joinComma parts) = parts from
      pySplit_joinComma parts (by rw [hparts]; simp) hnc]
    rw [show parts.filter (fun t => decide (pyStrip t ≠ [])) = parts from
      List.filter_eq_self.2 fun s hs => decide_eq_true (by
        rw [pyStrip_eq_self s fun c hc =>
          (not_special_of_good c (hgood s hs c hc)).2.1]
        exact hne s hs)]
    rw [hparts, parseAll_map_pyStrRound6 (x :: t) hv']

/-- **C4.** Serialising any Fingerprint (values in `[0,1]`) with the
Builder's `write_stream` serialisation and parsing the resulting `data`
string with the Detector's `parse_vector` yields a vector of the same
length whose every element differs from the original by at most `1e-6`
(in fact by at most `5e-7`, half the rounding step). -/
theorem serialization_roundtrip (v : List ℚ) (hv : ∀ x ∈ v, 0 ≤ x ∧ x ≤ 1) :
    (parse_vector (some (write_stream_data v))).length = v.length ∧
    List.Forall₂ (fun y x => |y - x| ≤ 1 / 1000000)
      (parse_vector (some (write_stream_data v))) v := by
  have h0 : ∀ x ∈ v, 0 ≤ x := fun x hx => (hv x hx).1
  rw [parse_write_stream_data v h0]
  refine ⟨by simp, ?_⟩
  rw [List.forall₂_map_left_iff, List.forall₂_same]
  intro x _
  have hclose := roundHalfEven_close (x * 10 ^ 6)
  have h6 : ((10 : ℚ) ^ 6) ≠ 0 := by norm_num
  have heq : ((roundHalfEven (x * 10 ^ 6) : ℤ) : ℚ) / 10 ^ 6 - x =
      (((roundHalfEven (x * 10 ^ 6) : ℤ) : ℚ) - x * 10 ^ 6) / 10 ^ 6 := by
    field_simp
    ring
  rw [heq, abs_div, abs_of_pos (show (0 : ℚ) < 10 ^ 6 by norm_num)]
  rw [div_le_iff₀ (show (0 : ℚ) < 10 ^ 6 by norm_num)]
  calc |((roundHalfEven (x * 10 ^ 6) : ℤ) : ℚ) - x * 10 ^ 6| ≤ 1 / 2 := hclose
    _ ≤ 1 / 1000000 * 10 ^ 6 := by norm_num

/-- Witness for C4 at the vector `[1/2, 0, 1]`. -/
theorem serialization_roundtrip_witness :
    (parse_vector (some (write_stream_data [1/2, 0, 1]))).length =
      ([1/2, 0, 1] : List ℚ).length ∧
    List.Forall₂ (fun y x => |y - x| ≤ 1 / 1000000)
      (parse_vector (some (write_stream_data [1/2, 0, 1]))) [1/2, 0, 1] :=
  serialization_roundtrip [1/2, 0, 1] (by norm_num)

/-! ## Concrete rendered strings (C5) -/

theorem natDigits_zero : natDigits 0 = ['0'] := by
  rw [natDigits, numDigits, Nat.log_zero_right]
  decide

theorem natDigits_one : natDigits 1 = ['1'] := by
  rw [natDigits, numDigits, Nat.log_one_right]
  decide

theorem strMicro_500000 : strMicro 500000 = "0.5".toList := by
  simp only [strMicro]
  rw [if_neg (by decide : ¬ (500000 : ℕ) = 0), if_pos (by decide : (100 : ℕ) ≤ 500000),
    (by decide : (500000 : ℕ) / 10 ^ 6 = 0), natDigits_zero]
  decide

theorem strMicro_1000000 : strMicro 1000000 = "1.0".toList := by
  simp only [strMicro]
  rw [if_neg (by decide : ¬ (1000000 : ℕ) = 0), if_pos (by decide : (100 : ℕ) ≤ 1000000),
    (by decide : (1000000 : ℕ) / 10 ^ 6 = 1), natDigits_one]
  decide

theorem strMicro_333333 : strMicro 333333 = "0.333333".toList := by
  simp only [strMicro]
  rw [if_neg (by decide : ¬ (333333 : ℕ) = 0), if_pos (by decide : (100 : ℕ) ≤ 333333),
    (by decide : (333333 : ℕ) / 10 ^ 6 = 0), natDigits_zero]
  decide

theorem strMicro_666667 : strMicro 666667 = "0.666667".toList := by
  simp only [strMicro]
  rw [if_neg (by decide : ¬ (666667 : ℕ) = 0), if_pos (by decide : (100 : ℕ) ≤ 666667),
    (by decide : (666667 : ℕ) / 10 ^ 6 = 0), natDigits_zero]
  decide

theorem pyStrRound6_half : pyStrRound6 (1/2) = "0.5".toList := by
  rw [pyStrRound6_of_nonneg _ (by norm_num),
    show ((1 : ℚ)/2) * 10 ^ 6 = ((500000 : ℤ) : ℚ) by norm_num,
    roundHalfEven_intCast]
  exact strMicro_500000

theorem pyStrRound6_zero : pyStrRound6 0 = "0.0".toList := by
  rw [pyStrRound6_of_nonneg _ le_rfl,
    show ((0 : ℚ)) * 10 ^ 6 = ((0 : ℤ) : ℚ) by norm_num,
    roundHalfEven_intCast]
  decide

theorem pyStrRound6_one : pyStrRound6 1 = "1.0".toList := by
  rw [pyStrRound6_of_nonneg _ (by norm_num),
    show ((1 : ℚ)) * 10 ^ 6 = ((1000000 : ℤ) : ℚ) by norm_num,
    roundHalfEven_intCast]
  exact strMicro_1000000

theorem pyStrRound6_third : pyStrRound6 (1/3) = "0.333333".toList := by
  have hfloor : ⌊(1/3 : ℚ) * 10 ^ 6⌋ = 333333 := by
    rw [Int.floor_eq_iff]
    norm_num
  have hrhe : roundHalfEven ((1/3 : ℚ) * 10 ^ 6) = 333333 := by
    simp only [roundHalfEven, hfloor]
    norm_num
  rw [pyStrRound6_of_nonneg _ (by norm_num), hrhe]
  exact strMicro_333333

theorem pyStrRound6_twothirds : pyStrRound6 (2/3) = "0.666667".toList := by
  have hfloor : ⌊(2/3 : ℚ) * 10 ^ 6⌋ = 666666 := by
    rw [Int.floor_eq_iff]
    norm_num
  have hrhe : roundHalfEven ((2/3 : ℚ) * 10 ^ 6) = 666667 := by
    simp only [roundHalfEven, hfloor]
    norm_num
  rw [pyStrRound6_of_nonneg _ (by norm_num), hrhe]
  exact strMicro_666667

theorem write_stream_data_example :
    write_stream_data [1/2, 1/2, 0, 1, 0, 0] = "[0.5,0.5,0.0,1.0,0.0,0.0]".toList := by
  simp only [write_stream_data, List.map_cons, List.map_nil,
    pyStrRound6_half, pyStrRound6_zero, pyStrRound6_one]
  decide

/-- **C5 counterexample.** On the spec's own example vector the Builder does
*not* produce the zero-padded textual form
`[0.500000,0.500000,0.000000,1.000000,0.000000,0.000000]`:
`str(round(x, 6))` renders Python's shortest float form, so the emitted
`data` field is `[0.5,0.5,0.0,1.0,0.0,0.0]`. -/
theorem wire_format_counterexample :
    write_stream_data [1/2, 1/2, 0, 1, 0, 0] ≠
      "[0.500000,0.500000,0.000000,1.000000,0.000000,0.000000]".toList := by
  rw [write_stream_data_example]
  decide

/-- **C5 (amended).** The Builder serializes a Fingerprint as a bracketed,
comma-separated decimal sequence with each value rounded to 6 decimal
places but rendered in Python's shortest float notation (no zero
padding; values below `1e-4` in scientific notation): the spec's example
vector serializes to `[0.5,0.5,0.0,1.0,0.0,0.0]`, and rounding to 6
places is visible on thirds: `1/3 ↦ 0.333333`, `2/3 ↦ 0.666667`. -/
theorem wire_format_shortest_form :
    write_stream_data [1/2, 1/2, 0, 1, 0, 0] = "[0.5,0.5,0.0,1.0,0.0,0.0]".toList ∧
    pyStrRound6 (1/3) = "0.333333".toList ∧
    pyStrRound6 (2/3) = "0.666667".toList :=
  ⟨write_stream_data_example, pyStrRound6_third, pyStrRound6_twothirds⟩

end Pipeline
